import Mathlib

/-!
# Verification of the emoji-manager batch converter

A shallow embedding of `emoji_manager.py`.  Python strings are modelled as
lists of Unicode code points (`List Nat`); the regex `EMOJI_REGEX` (a single
character class followed by `+`) is modelled by the character predicate
`isEmojiChar` together with maximal-run extraction; Python's insertion-ordered
`dict` is modelled by an association list extended at the tail; `deque` with
`popleft`/`append` is modelled by head removal and tail append on a list.
Fallible operations (`deque.popleft` on an empty deque raises `IndexError`)
return `Option`.
-/

set_option maxHeartbeats 1000000

/-- A Python string: its list of Unicode code points. -/
abbrev PyStr := List Nat

/-- A Python `dict` mapping emoji strings to emoji strings, in insertion
order: an association list, new entries appended at the tail. -/
abbrev EmojiMap := List (PyStr × PyStr)

/-- `EMOJI_ANIMALS_NATURE` from the source, as code-point lists. -/
def EMOJI_ANIMALS_NATURE : List PyStr :=
  [[128054], [128049], [128045], [128057], [128048], [129418], [128059],
   [128060], [128040], [128047], [129409], [128046], [128055], [128056],
   [128053], [129412], [128020], [128039], [128038], [128036]]

/-- `EMOJI_FOOD_DRINK` from the source, as code-point lists. -/
def EMOJI_FOOD_DRINK : List PyStr :=
  [[127823], [127822], [127824], [127818], [127819], [127820], [127817],
   [127815], [127827], [129744], [127816], [127826], [127825], [129389],
   [127821], [129381], [129373], [127813], [127814], [129361]]

/-- `EMOJI_ACTIVITY` from the source, as code-point lists. -/
def EMOJI_ACTIVITY : List PyStr :=
  [[9917], [127936], [127944], [9918], [127934], [127952], [127945],
   [127921], [127955], [127992], [129349], [127954], [127953], [127951],
   [9971], [127993], [127907], [129343], [129354], [129355]]

/-- `EMOJI_OBJECTS` from the source; several members carry the variation
selector U+FE0F (65039) as a second code point. -/
def EMOJI_OBJECTS : List PyStr :=
  [[8986], [128241], [128187], [128424, 65039], [128377, 65039], [127918],
   [128247], [128248], [128249], [127909], [128250], [128251],
   [127897, 65039], [127898, 65039], [127899, 65039], [9742, 65039],
   [128222], [128223], [128224], [128267]]

/-- `EMOJI_PLACES` from the source, as code-point lists. -/
def EMOJI_PLACES : List PyStr :=
  [[128663], [128661], [128665], [128652], [128654], [127950, 65039],
   [128659], [128657], [128658], [128656], [128763], [128666], [128667],
   [128668], [127949, 65039], [128757], [128690], [128756], [128680],
   [128660]]

/-- `ANDROID_EMOJI_POOL`: concatenation of the five themed groups. -/
def ANDROID_EMOJI_POOL : List PyStr :=
  EMOJI_ANIMALS_NATURE ++ EMOJI_FOOD_DRINK ++ EMOJI_ACTIVITY ++
  EMOJI_OBJECTS ++ EMOJI_PLACES

/-- The character class of `EMOJI_REGEX`: a code point is an emoji character
iff it lies in one of the eleven ranges of the source pattern. -/
def isEmojiChar (c : Nat) : Bool :=
  (0x1F300 ≤ c && c ≤ 0x1F5FF) ||
  (0x1F600 ≤ c && c ≤ 0x1F64F) ||
  (0x1F680 ≤ c && c ≤ 0x1F6FF) ||
  (0x1F700 ≤ c && c ≤ 0x1F77F) ||
  (0x1F780 ≤ c && c ≤ 0x1F7FF) ||
  (0x1F800 ≤ c && c ≤ 0x1F8FF) ||
  (0x1F900 ≤ c && c ≤ 0x1F9FF) ||
  (0x1FA00 ≤ c && c ≤ 0x1FA6F) ||
  (0x1FA70 ≤ c && c ≤ 0x1FAFF) ||
  (0x2702 ≤ c && c ≤ 0x27B0) ||
  (0x24C2 ≤ c && c ≤ 0x1F251)

theorem dropWhile_length_le (p : Nat → Bool) :
    ∀ l : List Nat, (l.dropWhile p).length ≤ l.length
  | [] => Nat.le_refl _
  | c :: cs => by
    rw [List.dropWhile_cons]
    cases h : p c
    · simp
    · simpa using Nat.le_succ_of_le (dropWhile_length_le p cs)

/-- `extract_emojis` / `EMOJI_REGEX.findall`: the list of maximal contiguous
runs of emoji characters, in order of appearance. -/
def extract_emojis : PyStr → List PyStr
  | [] => []
  | c :: cs =>
    if isEmojiChar c then
      (c :: cs.takeWhile isEmojiChar) :: extract_emojis (cs.dropWhile isEmojiChar)
    else
      extract_emojis cs
termination_by l => l.length
decreasing_by
  · simpa using Nat.lt_succ_of_le (dropWhile_length_le isEmojiChar cs)
  · simp

/-- First-match lookup in an association list; models Python `dict`
subscript/`get` (dict keys are unique, so first match is the match). -/
def lookupKey (m : EmojiMap) (k : PyStr) : Option PyStr :=
  match m with
  | [] => none
  | (a, b) :: rest => if a = k then some b else lookupKey rest k

/-- Key-membership test; models Python `emoji in emoji_map`. -/
def containsKey (m : EmojiMap) (k : PyStr) : Bool :=
  (lookupKey m k).isSome

/-- The loop body of `build_emoji_map`, also exposing the rotating pool
(`deque`) state: for each original emoji not yet mapped, pop the pool front
as its replacement and push that value to the pool's back.  `none` models the
`IndexError` `popleft` raises on an empty deque. -/
def build_emoji_map_loop :
    List PyStr → EmojiMap → List PyStr → Option (EmojiMap × List PyStr)
  | [], m, pool => some (m, pool)
  | e :: es, m, pool =>
    if containsKey m e then
      build_emoji_map_loop es m pool
    else
      match pool with
      | [] => none
      | p :: ps => build_emoji_map_loop es (m ++ [(e, p)]) (ps ++ [p])

/-- `build_emoji_map`: the emoji map produced from the ordered original
emojis and the pool (the final deque state is internal and discarded). -/
def build_emoji_map (original_emojis : List PyStr) (emoji_pool : List PyStr) :
    Option EmojiMap :=
  (build_emoji_map_loop original_emojis [] emoji_pool).map Prod.fst

/-- `replace_emojis`: substitute every maximal emoji run through the map
(`emoji_map.get(emoji, emoji)`), leaving other characters in place. -/
def replace_emojis (text : PyStr) (emoji_map : EmojiMap) : PyStr :=
  match text with
  | [] => []
  | c :: cs =>
    if isEmojiChar c then
      let run := c :: cs.takeWhile isEmojiChar
      ((lookupKey emoji_map run).getD run) ++
        replace_emojis (cs.dropWhile isEmojiChar) emoji_map
    else
      c :: replace_emojis cs emoji_map
termination_by text.length
decreasing_by
  · simpa using Nat.lt_succ_of_le (dropWhile_length_le isEmojiChar cs)
  · simp

/-- The loop of `get_emojis_in_order`: keep the first occurrence of each
distinct match, tracking the `seen` set (modelled as a list queried by
membership). -/
def dedup_seen : List PyStr → List PyStr → List PyStr
  | [], _ => []
  | em :: rest, seen =>
    if em ∈ seen then dedup_seen rest seen
    else em :: dedup_seen rest (em :: seen)

/-- `get_emojis_in_order`: distinct matched emoji runs in first-occurrence
order. -/
def get_emojis_in_order (text : PyStr) : List PyStr :=
  dedup_seen (extract_emojis text) []

/-! ## Association-list lemmas -/

theorem containsKey_false_iff (m : EmojiMap) (k : PyStr) :
    containsKey m k = false ↔ lookupKey m k = none := by
  unfold containsKey
  cases lookupKey m k <;> simp

theorem containsKey_append_one (m : EmojiMap) (e p x : PyStr) :
    containsKey (m ++ [(e, p)]) x = false ↔
      containsKey m x = false ∧ e ≠ x := by
  induction m with
  | nil =>
    simp only [containsKey_false_iff, List.nil_append, lookupKey]
    split
    · simp_all
    · simp_all [lookupKey]
  | cons a t ih =>
    obtain ⟨b, c⟩ := a
    simp only [containsKey_false_iff, List.cons_append, lookupKey] at *
    split
    · simp
    · simpa [← containsKey_false_iff] using ih

theorem lookupKey_mem_values (m : EmojiMap) (k v : PyStr)
    (h : lookupKey m k = some v) : v ∈ m.map Prod.snd := by
  induction m with
  | nil => simp [lookupKey] at h
  | cons a t ih =>
    obtain ⟨b, c⟩ := a
    rw [lookupKey] at h
    by_cases hb : b = k
    · rw [if_pos hb] at h
      have hcv : c = v := by simpa using h
      simp [hcv]
    · rw [if_neg hb] at h
      simp [ih h]

theorem lookupKey_inj_of_values_nodup (m : EmojiMap)
    (hv : (m.map Prod.snd).Nodup) (k1 k2 v : PyStr)
    (h1 : lookupKey m k1 = some v) (h2 : lookupKey m k2 = some v) :
    k1 = k2 := by
  induction m with
  | nil => simp [lookupKey] at h1
  | cons a t ih =>
    obtain ⟨b, c⟩ := a
    simp only [List.map_cons, List.nodup_cons] at hv
    rw [lookupKey] at h1 h2
    by_cases hb1 : b = k1 <;> by_cases hb2 : b = k2
    · exact hb1 ▸ hb2 ▸ rfl
    · rw [if_pos hb1] at h1
      rw [if_neg hb2] at h2
      have hcv : c = v := by simpa using h1
      exact absurd (lookupKey_mem_values t k2 v h2) (hcv ▸ hv.1)
    · rw [if_neg hb1] at h1
      rw [if_pos hb2] at h2
      have hcv : c = v := by simpa using h2
      exact absurd (lookupKey_mem_values t k1 v h1) (hcv ▸ hv.1)
    · rw [if_neg hb1] at h1
      rw [if_neg hb2] at h2
      exact ih hv.2 h1 h2

/-! ## Characterising `build_emoji_map`

`rotAssign` is the mathematical description of the loop: pair each original
with the front of the rotating pool, rotating by one at every step. -/

def rotAssign : List PyStr → List PyStr → EmojiMap
  | [], _ => []
  | _ :: _, [] => []
  | e :: es, p :: ps => (e, p) :: rotAssign es (ps ++ [p])

theorem build_loop_rotAssign :
    ∀ (originals : List PyStr) (m : EmojiMap) (pool : List PyStr),
      originals.Nodup → (∀ e ∈ originals, containsKey m e = false) →
      0 < pool.length →
      build_emoji_map_loop originals m pool =
        some (m ++ rotAssign originals pool, pool.rotate originals.length) := by
  intro originals
  induction originals with
  | nil =>
    intro m pool _ _ _
    simp [build_emoji_map_loop, rotAssign, List.rotate_zero]
  | cons e es ih =>
    intro m pool hnd hkeys hp
    match pool with
    | [] => exact absurd hp (by simp)
    | p :: ps =>
      have he : containsKey m e = false := hkeys e (List.mem_cons_self e es)
      rw [build_emoji_map_loop, if_neg (by simp [he])]
      have hnd' := List.nodup_cons.mp hnd
      have hih := ih (m ++ [(e, p)]) (ps ++ [p]) hnd'.2
        (fun x hx => (containsKey_append_one m e p x).mpr
          ⟨hkeys x (List.mem_cons_of_mem e hx),
           fun hex => hnd'.1 (hex ▸ hx)⟩)
        (by simp)
      rw [hih, rotAssign]
      simp only [List.length_cons, List.rotate_cons_succ, List.append_assoc,
        List.singleton_append]

theorem rotAssign_values :
    ∀ (originals pool : List PyStr), originals.length ≤ pool.length →
      (rotAssign originals pool).map Prod.snd = pool.take originals.length := by
  intro originals
  induction originals with
  | nil => intro pool _; simp [rotAssign]
  | cons e es ih =>
    intro pool hlen
    match pool with
    | [] => simp at hlen
    | p :: ps =>
      have hlen' : es.length ≤ ps.length := by simpa using hlen
      rw [rotAssign, List.map_cons, ih (ps ++ [p]) (by simp; omega),
        List.take_append_of_le_length hlen', List.length_cons,
        List.take_succ_cons]

theorem rotAssign_lookup :
    ∀ (originals pool : List PyStr), originals.Nodup →
      ∀ (hp : 0 < pool.length) (i : Nat) (hi : i < originals.length),
        lookupKey (rotAssign originals pool) (originals.get ⟨i, hi⟩) =
          some (pool.get ⟨i % pool.length, Nat.mod_lt i hp⟩) := by
  intro originals
  induction originals with
  | nil => intro pool _ _ i hi; simp at hi
  | cons e es ih =>
    intro pool hnd hp i hi
    match pool with
    | [] => exact absurd hp (by simp)
    | p :: ps =>
      have hnd' := List.nodup_cons.mp hnd
      match i with
      | 0 =>
        simp [rotAssign, lookupKey, List.get]
      | i + 1 =>
        have hi' : i < es.length := by simpa using hi
        have hne : e ≠ es.get ⟨i, hi'⟩ :=
          fun hex => hnd'.1 (hex ▸ es.get_mem i hi')
        rw [rotAssign]
        show lookupKey ((e, p) :: rotAssign es (ps ++ [p])) ((e :: es).get ⟨i + 1, hi⟩) = _
        have hget : (e :: es).get ⟨i + 1, hi⟩ = es.get ⟨i, hi'⟩ := rfl
        rw [lookupKey, hget, if_neg hne, ih (ps ++ [p]) hnd'.2 (by simp) i hi']
        have hrot : ps ++ [p] = (p :: ps).rotate 1 := by
          rw [List.rotate_cons_succ, List.rotate_zero]
        rw [List.get_of_eq hrot]
        rw [List.get_rotate]
        refine congrArg some (congrArg _ (Fin.ext ?_))
        simp [Nat.mod_add_mod]

theorem ANDROID_EMOJI_POOL_nodup : ANDROID_EMOJI_POOL.Nodup := by decide

theorem ANDROID_EMOJI_POOL_length : ANDROID_EMOJI_POOL.length = 100 := rfl

/-- C1: for every distinct-emoji sequence of length at most 100 (the pool
size) and the fixed `ANDROID_EMOJI_POOL` — which itself contains no duplicate
elements — `build_emoji_map` succeeds and the produced map is injective: no
two distinct keys are assigned the same replacement value. -/
theorem C1_build_map_injective (originals : List PyStr)
    (hnd : originals.Nodup) (hlen : originals.length ≤ 100) :
    ANDROID_EMOJI_POOL.Nodup ∧
    ∃ m, build_emoji_map originals ANDROID_EMOJI_POOL = some m ∧
      ∀ k1 k2 v, lookupKey m k1 = some v → lookupKey m k2 = some v →
        k1 = k2 := by
  have hlen' : originals.length ≤ ANDROID_EMOJI_POOL.length := by
    rw [ANDROID_EMOJI_POOL_length]; exact hlen
  refine ⟨ANDROID_EMOJI_POOL_nodup, rotAssign originals ANDROID_EMOJI_POOL,
    ?_, ?_⟩
  · unfold build_emoji_map
    rw [build_loop_rotAssign originals [] ANDROID_EMOJI_POOL hnd
      (fun e _ => rfl) (by rw [ANDROID_EMOJI_POOL_length]; exact Nat.succ_pos 99)]
    simp
  · intro k1 k2 v h1 h2
    apply lookupKey_inj_of_values_nodup _ _ k1 k2 v h1 h2
    rw [rotAssign_values originals ANDROID_EMOJI_POOL hlen']
    exact ANDROID_EMOJI_POOL_nodup.sublist
      (List.take_sublist originals.length ANDROID_EMOJI_POOL)

theorem C1_build_map_injective_witness :
    ANDROID_EMOJI_POOL.Nodup ∧
    ∃ m, build_emoji_map [[128054], [127822]] ANDROID_EMOJI_POOL = some m ∧
      ∀ k1 k2 v, lookupKey m k1 = some v → lookupKey m k2 = some v →
        k1 = k2 :=
  C1_build_map_injective [[128054], [127822]] (by decide) (by decide)

/-- C2: for every distinct-emoji sequence and every nonempty pool of size N,
`build_emoji_map` assigns the i-th distinct emoji (0-indexed here) the pool
element at index i mod N; when the distinct count exceeds N the replacements
repeat (the (N+1)-th distinct emoji gets the same replacement as the first),
and after every step the rotating queue is a permutation of the original N
pool members. -/
theorem C2_round_robin (originals pool : List PyStr)
    (hnd : originals.Nodup) (hp : 0 < pool.length) :
    ∃ m poolFinal,
      build_emoji_map_loop originals [] pool = some (m, poolFinal) ∧
      build_emoji_map originals pool = some m ∧
      (∀ (i : Nat) (hi : i < originals.length),
        lookupKey m (originals.get ⟨i, hi⟩) =
          some (pool.get ⟨i % pool.length, Nat.mod_lt i hp⟩)) ∧
      (∀ hgt : pool.length < originals.length,
        lookupKey m (originals.get ⟨pool.length, hgt⟩) =
          lookupKey m
            (originals.get ⟨0, Nat.lt_of_le_of_lt (Nat.zero_le _) hgt⟩)) ∧
      (∀ k : Nat, ∃ mk poolk,
        build_emoji_map_loop (originals.take k) [] pool = some (mk, poolk) ∧
        poolk.Perm pool) := by
  have hloop := build_loop_rotAssign originals [] pool hnd (fun e _ => rfl) hp
  refine ⟨rotAssign originals pool, pool.rotate originals.length,
    by simpa using hloop, ?_, ?_, ?_, ?_⟩
  · unfold build_emoji_map
    rw [hloop]
    simp
  · intro i hi
    exact rotAssign_lookup originals pool hnd hp i hi
  · intro hgt
    have hlt0 : 0 < originals.length := Nat.lt_of_le_of_lt (Nat.zero_le _) hgt
    rw [rotAssign_lookup originals pool hnd hp pool.length hgt,
      rotAssign_lookup originals pool hnd hp 0 hlt0]
    refine congrArg some (congrArg _ (Fin.ext ?_))
    simp
  · intro k
    have hloopk := build_loop_rotAssign (originals.take k) [] pool
      (hnd.sublist (List.take_sublist k originals)) (fun e _ => rfl) hp
    exact ⟨rotAssign (originals.take k) pool,
      pool.rotate (originals.take k).length, by simpa using hloopk,
      List.rotate_perm pool _⟩

theorem C2_round_robin_witness :
    ∃ m poolFinal,
      build_emoji_map_loop [[1], [2], [3]] [] [[10], [11]] =
        some (m, poolFinal) ∧
      build_emoji_map [[1], [2], [3]] [[10], [11]] = some m ∧
      (∀ (i : Nat) (hi : i < ([[1], [2], [3]] : List PyStr).length),
        lookupKey m (([[1], [2], [3]] : List PyStr).get ⟨i, hi⟩) =
          some (([[10], [11]] : List PyStr).get
            ⟨i % ([[10], [11]] : List PyStr).length,
             Nat.mod_lt i (by decide)⟩)) ∧
      (∀ hgt : ([[10], [11]] : List PyStr).length <
          ([[1], [2], [3]] : List PyStr).length,
        lookupKey m (([[1], [2], [3]] : List PyStr).get
            ⟨([[10], [11]] : List PyStr).length, hgt⟩) =
          lookupKey m (([[1], [2], [3]] : List PyStr).get
            ⟨0, Nat.lt_of_le_of_lt (Nat.zero_le _) hgt⟩)) ∧
      (∀ k : Nat, ∃ mk poolk,
        build_emoji_map_loop (([[1], [2], [3]] : List PyStr).take k) []
            [[10], [11]] = some (mk, poolk) ∧
        poolk.Perm [[10], [11]]) :=
  C2_round_robin [[1], [2], [3]] [[10], [11]] (by decide) (by decide)

/-! ## Deduplication lemmas (`get_emojis_in_order`) -/

theorem dedup_seen_congr :
    ∀ (l s1 s2 : List PyStr), (∀ x, x ∈ s1 ↔ x ∈ s2) →
      dedup_seen l s1 = dedup_seen l s2 := by
  intro l
  induction l with
  | nil => intro s1 s2 _; rfl
  | cons e rest ih =>
    intro s1 s2 h
    rw [dedup_seen, dedup_seen]
    by_cases he : e ∈ s1
    · rw [if_pos he, if_pos ((h e).mp he)]
      exact ih s1 s2 h
    · rw [if_neg he, if_neg (fun h2 => he ((h e).mpr h2))]
      rw [ih (e :: s1) (e :: s2) (by intro x; simp [h x])]

theorem containsKey_iff_mem_keys (m : EmojiMap) (x : PyStr) :
    containsKey m x = true ↔ x ∈ m.map Prod.fst := by
  induction m with
  | nil => simp [containsKey, lookupKey]
  | cons a t ih =>
    obtain ⟨b, c⟩ := a
    simp only [containsKey, lookupKey] at *
    by_cases hb : b = x
    · simp [hb]
    · rw [if_neg hb]
      simp only [List.map_cons, List.mem_cons]
      constructor
      · intro h; exact Or.inr (ih.mp h)
      · intro h
        match h with
        | Or.inl h => exact absurd h.symm hb
        | Or.inr h => exact ih.mpr h

theorem build_loop_dedup :
    ∀ (l : List PyStr) (m : EmojiMap) (pool : List PyStr),
      build_emoji_map_loop l m pool =
        build_emoji_map_loop (dedup_seen l (m.map Prod.fst)) m pool := by
  intro l
  induction l with
  | nil => intro m pool; rfl
  | cons e es ih =>
    intro m pool
    rw [dedup_seen]
    by_cases hc : containsKey m e = true
    · rw [if_pos ((containsKey_iff_mem_keys m e).mp hc)]
      simp only [build_emoji_map_loop, if_pos hc]
      exact ih m pool
    · rw [if_neg (fun hm => hc ((containsKey_iff_mem_keys m e).mpr hm))]
      simp only [build_emoji_map_loop, if_neg hc]
      match pool with
      | [] => rfl
      | p :: ps =>
        show build_emoji_map_loop es (m ++ [(e, p)]) (ps ++ [p]) =
          build_emoji_map_loop (dedup_seen es (e :: m.map Prod.fst))
            (m ++ [(e, p)]) (ps ++ [p])
        rw [ih (m ++ [(e, p)]) (ps ++ [p])]
        rw [dedup_seen_congr es ((m ++ [(e, p)]).map Prod.fst)
          (e :: m.map Prod.fst) (by intro x; simp [or_comm])]

/-- C9: `build_emoji_map` produces exactly the same map on a list of emojis
(possibly with duplicates) as on its first-occurrence deduplication — the
one `get_emojis_in_order` computes: duplicates after the first occurrence
never advance the rotating pool. -/
theorem C9_duplicates_ignored :
    (∀ (l pool : List PyStr),
      build_emoji_map l pool = build_emoji_map (dedup_seen l []) pool) ∧
    (∀ (text : PyStr) (pool : List PyStr),
      build_emoji_map (extract_emojis text) pool =
        build_emoji_map (get_emojis_in_order text) pool) := by
  have hmain : ∀ (l pool : List PyStr),
      build_emoji_map l pool = build_emoji_map (dedup_seen l []) pool := by
    intro l pool
    unfold build_emoji_map
    have h := build_loop_dedup l [] pool
    simp only [List.map_nil] at h
    rw [h]
  exact ⟨hmain, fun text pool => hmain (extract_emojis text) pool⟩

theorem dedup_seen_mem :
    ∀ (l seen : List PyStr) (x : PyStr),
      x ∈ dedup_seen l seen → x ∈ l ∧ x ∉ seen := by
  intro l
  induction l with
  | nil => intro seen x hx; simp [dedup_seen] at hx
  | cons e rest ih =>
    intro seen x hx
    rw [dedup_seen] at hx
    by_cases he : e ∈ seen
    · rw [if_pos he] at hx
      have h := ih seen x hx
      exact ⟨List.mem_cons_of_mem e h.1, h.2⟩
    · rw [if_neg he] at hx
      match List.mem_cons.mp hx with
      | Or.inl hxe => exact ⟨hxe ▸ List.mem_cons_self e rest, hxe ▸ he⟩
      | Or.inr hx' =>
        have h := ih (e :: seen) x hx'
        exact ⟨List.mem_cons_of_mem e h.1,
          fun hs => h.2 (List.mem_cons_of_mem e hs)⟩

theorem dedup_seen_nodup : ∀ (l seen : List PyStr), (dedup_seen l seen).Nodup := by
  intro l
  induction l with
  | nil => intro seen; simp [dedup_seen]
  | cons e rest ih =>
    intro seen
    rw [dedup_seen]
    by_cases he : e ∈ seen
    · rw [if_pos he]; exact ih seen
    · rw [if_neg he]
      refine List.nodup_cons.mpr ⟨?_, ih (e :: seen)⟩
      intro hmem
      exact (dedup_seen_mem rest (e :: seen) e hmem).2 (List.mem_cons_self e seen)

/-- Index of the first occurrence of `x` in `l` (length of `l` when absent). -/
def firstIdx : List PyStr → PyStr → Nat
  | [], _ => 0
  | e :: rest, x => if e = x then 0 else firstIdx rest x + 1

theorem firstIdx_cons_self (e : PyStr) (l : List PyStr) :
    firstIdx (e :: l) e = 0 := by
  simp [firstIdx]

theorem firstIdx_cons_ne (e x : PyStr) (l : List PyStr) (h : e ≠ x) :
    firstIdx (e :: l) x = firstIdx l x + 1 := by
  simp [firstIdx, h]

theorem dedup_seen_pairwise_firstIdx :
    ∀ (l seen : List PyStr),
      (dedup_seen l seen).Pairwise
        (fun a b => firstIdx l a < firstIdx l b) := by
  intro l
  induction l with
  | nil => intro seen; simp [dedup_seen]
  | cons e rest ih =>
    intro seen
    rw [dedup_seen]
    by_cases he : e ∈ seen
    · rw [if_pos he]
      refine List.Pairwise.imp_of_mem ?_ (ih seen)
      intro a b ha hb hr
      have hae : a ≠ e := fun h => (dedup_seen_mem rest seen a ha).2 (h ▸ he)
      have hbe : b ≠ e := fun h => (dedup_seen_mem rest seen b hb).2 (h ▸ he)
      show firstIdx (e :: rest) a < firstIdx (e :: rest) b
      rw [firstIdx_cons_ne e a rest (Ne.symm hae),
        firstIdx_cons_ne e b rest (Ne.symm hbe)]
      exact Nat.succ_lt_succ hr
    · rw [if_neg he]
      refine List.Pairwise.cons ?_ ?_
      · intro b hb
        have hbe : b ≠ e := fun h =>
          (dedup_seen_mem rest (e :: seen) b hb).2 (h ▸ List.mem_cons_self e seen)
        show firstIdx (e :: rest) e < firstIdx (e :: rest) b
        rw [firstIdx_cons_self, firstIdx_cons_ne e b rest (Ne.symm hbe)]
        exact Nat.succ_pos _
      · refine List.Pairwise.imp_of_mem ?_ (ih (e :: seen))
        intro a b ha hb hr
        have hae : a ≠ e := fun h =>
          (dedup_seen_mem rest (e :: seen) a ha).2 (h ▸ List.mem_cons_self e seen)
        have hbe : b ≠ e := fun h =>
          (dedup_seen_mem rest (e :: seen) b hb).2 (h ▸ List.mem_cons_self e seen)
        show firstIdx (e :: rest) a < firstIdx (e :: rest) b
        rw [firstIdx_cons_ne e a rest (Ne.symm hae),
          firstIdx_cons_ne e b rest (Ne.symm hbe)]
        exact Nat.succ_lt_succ hr

/-- C5: for all input text, `get_emojis_in_order` has no duplicates, every
element is a scanner match of the text, and elements are ordered by the
position of their first occurrence among the scanner's matches. -/
theorem C5_distinct_first_occurrence_order (text : PyStr) :
    (get_emojis_in_order text).Nodup ∧
    (∀ e ∈ get_emojis_in_order text, e ∈ extract_emojis text) ∧
    (get_emojis_in_order text).Pairwise
      (fun a b => firstIdx (extract_emojis text) a <
        firstIdx (extract_emojis text) b) :=
  ⟨dedup_seen_nodup (extract_emojis text) [],
   fun e he => (dedup_seen_mem (extract_emojis text) [] e he).1,
   dedup_seen_pairwise_firstIdx (extract_emojis text) []⟩

theorem C5_distinct_first_occurrence_order_witness :
    (get_emojis_in_order [128054, 32, 127822, 32, 128054]).Nodup ∧
    (∀ e ∈ get_emojis_in_order [128054, 32, 127822, 32, 128054],
      e ∈ extract_emojis [128054, 32, 127822, 32, 128054]) ∧
    (get_emojis_in_order [128054, 32, 127822, 32, 128054]).Pairwise
      (fun a b =>
        firstIdx (extract_emojis [128054, 32, 127822, 32, 128054]) a <
        firstIdx (extract_emojis [128054, 32, 127822, 32, 128054]) b) :=
  C5_distinct_first_occurrence_order [128054, 32, 127822, 32, 128054]

/-! ## Run decomposition lemmas for the scanner and the substitution step -/

theorem takeWhile_append_all (p : Nat → Bool) :
    ∀ (l1 l2 : List Nat), (∀ c ∈ l1, p c = true) →
      (l1 ++ l2).takeWhile p = l1 ++ l2.takeWhile p := by
  intro l1
  induction l1 with
  | nil => intro l2 _; simp
  | cons a t ih =>
    intro l2 h
    rw [List.cons_append, List.takeWhile_cons, h a (List.mem_cons_self a t),
      if_pos rfl, ih l2 (fun c hc => h c (List.mem_cons_of_mem a hc))]
    rfl

theorem dropWhile_append_all (p : Nat → Bool) :
    ∀ (l1 l2 : List Nat), (∀ c ∈ l1, p c = true) →
      (l1 ++ l2).dropWhile p = l2.dropWhile p := by
  intro l1
  induction l1 with
  | nil => intro l2 _; simp
  | cons a t ih =>
    intro l2 h
    rw [List.cons_append, List.dropWhile_cons, h a (List.mem_cons_self a t),
      if_pos rfl]
    exact ih l2 (fun c hc => h c (List.mem_cons_of_mem a hc))

theorem takeWhile_eq_nil_of_head (p : Nat → Bool) (l : List Nat)
    (h : ∀ c, l.head? = some c → p c = false) : l.takeWhile p = [] := by
  match l with
  | [] => rfl
  | a :: t =>
    rw [List.takeWhile_cons, h a rfl]
    simp

theorem dropWhile_eq_self_of_head (p : Nat → Bool) (l : List Nat)
    (h : ∀ c, l.head? = some c → p c = false) : l.dropWhile p = l := by
  match l with
  | [] => rfl
  | a :: t =>
    rw [List.dropWhile_cons, h a rfl]
    simp

theorem extract_eq_nil_imp :
    ∀ text : PyStr, extract_emojis text = [] → ∀ c ∈ text, isEmojiChar c = false := by
  intro text
  induction text with
  | nil => intro _ c hc; simp at hc
  | cons a t ih =>
    intro h c hc
    rw [extract_emojis] at h
    by_cases ha : isEmojiChar a = true
    · rw [if_pos ha] at h
      exact absurd h (by simp)
    · have ha' : isEmojiChar a = false := by simpa using ha
      rw [if_neg ha] at h
      match List.mem_cons.mp hc with
      | Or.inl hca => exact hca ▸ ha'
      | Or.inr hct => exact ih h c hct

theorem replace_emojis_all_plain :
    ∀ (text : PyStr) (m : EmojiMap), (∀ c ∈ text, isEmojiChar c = false) →
      replace_emojis text m = text := by
  intro text
  induction text with
  | nil => intro m _; rw [replace_emojis]
  | cons a t ih =>
    intro m h
    rw [replace_emojis, if_neg (by simp [h a (List.mem_cons_self a t)])]
    rw [ih m (fun c hc => h c (List.mem_cons_of_mem a hc))]

theorem replace_emojis_append_plain (m : EmojiMap) :
    ∀ (pre rest : PyStr), (∀ c ∈ pre, isEmojiChar c = false) →
      replace_emojis (pre ++ rest) m = pre ++ replace_emojis rest m := by
  intro pre
  induction pre with
  | nil => intro rest _; rfl
  | cons a t ih =>
    intro rest h
    rw [List.cons_append, replace_emojis,
      if_neg (by simp [h a (List.mem_cons_self a t)])]
    rw [ih rest (fun c hc => h c (List.mem_cons_of_mem a hc)), List.cons_append]

theorem replace_emojis_run (m : EmojiMap) (run post : PyStr) (hne : run ≠ [])
    (hall : ∀ c ∈ run, isEmojiChar c = true)
    (hpost : ∀ c, post.head? = some c → isEmojiChar c = false) :
    replace_emojis (run ++ post) m =
      ((lookupKey m run).getD run) ++ replace_emojis post m := by
  match run, hne with
  | r0 :: rtail, _ =>
    have hr0 : isEmojiChar r0 = true := hall r0 (List.mem_cons_self r0 rtail)
    rw [List.cons_append, replace_emojis, if_pos hr0]
    rw [takeWhile_append_all isEmojiChar rtail post
        (fun c hc => hall c (List.mem_cons_of_mem r0 hc)),
      takeWhile_eq_nil_of_head isEmojiChar post hpost, List.append_nil,
      dropWhile_append_all isEmojiChar rtail post
        (fun c hc => hall c (List.mem_cons_of_mem r0 hc)),
      dropWhile_eq_self_of_head isEmojiChar post hpost]

theorem extract_emojis_run (run post : PyStr) (hne : run ≠ [])
    (hall : ∀ c ∈ run, isEmojiChar c = true)
    (hpost : ∀ c, post.head? = some c → isEmojiChar c = false) :
    extract_emojis (run ++ post) = run :: extract_emojis post := by
  match run, hne with
  | r0 :: rtail, _ =>
    have hr0 : isEmojiChar r0 = true := hall r0 (List.mem_cons_self r0 rtail)
    rw [List.cons_append, extract_emojis, if_pos hr0]
    rw [takeWhile_append_all isEmojiChar rtail post
        (fun c hc => hall c (List.mem_cons_of_mem r0 hc)),
      takeWhile_eq_nil_of_head isEmojiChar post hpost, List.append_nil,
      dropWhile_append_all isEmojiChar rtail post
        (fun c hc => hall c (List.mem_cons_of_mem r0 hc)),
      dropWhile_eq_self_of_head isEmojiChar post hpost]

/-- C4: `replace_emojis` replaces a matched run by the map's value for that
exact run when present (`getD` falls back to the run itself when absent,
without error), leaves text outside matched spans byte-for-byte unchanged,
and returns text containing no scanner match entirely unchanged. -/
theorem C4_replace_contract (m : EmojiMap) :
    (∀ text : PyStr, extract_emojis text = [] →
      replace_emojis text m = text) ∧
    (∀ pre run post : PyStr,
      (∀ c ∈ pre, isEmojiChar c = false) →
      run ≠ [] → (∀ c ∈ run, isEmojiChar c = true) →
      (∀ c, post.head? = some c → isEmojiChar c = false) →
      replace_emojis (pre ++ run ++ post) m =
        pre ++ ((lookupKey m run).getD run) ++ replace_emojis post m) := by
  constructor
  · intro text h
    exact replace_emojis_all_plain text m (extract_eq_nil_imp text h)
  · intro pre run post hpre hne hall hpost
    rw [List.append_assoc, replace_emojis_append_plain m pre (run ++ post) hpre,
      replace_emojis_run m run post hne hall hpost, List.append_assoc]

theorem C4_replace_contract_witness :
    replace_emojis [72, 105] [([128054], [129418])] = [72, 105] ∧
    replace_emojis ([72] ++ [128054] ++ [33]) [([128054], [129418])] =
      [72] ++ ((lookupKey [([128054], [129418])] [128054]).getD [128054]) ++
        replace_emojis [33] [([128054], [129418])] :=
  ⟨(C4_replace_contract [([128054], [129418])]).1 [72, 105]
      (by simp [extract_emojis, isEmojiChar]),
   (C4_replace_contract [([128054], [129418])]).2 [72] [128054] [33]
      (by decide) (by decide) (by decide) (by decide)⟩

/-- C7: two adjacent emoji characters with no separating character are
matched as a single two-character run by the scanner, and that run is
treated as one atomic unit by the substitution step: it is looked up in the
map as a whole, not decomposed into its individual characters. -/
theorem C7_adjacent_emojis_single_run (c1 c2 : Nat)
    (h1 : isEmojiChar c1 = true) (h2 : isEmojiChar c2 = true) (m : EmojiMap) :
    extract_emojis [c1, c2] = [[c1, c2]] ∧
    replace_emojis [c1, c2] m = (lookupKey m [c1, c2]).getD [c1, c2] := by
  constructor
  · have h := extract_emojis_run [c1, c2] [] (by simp)
      (by intro c hc; simp at hc; rcases hc with rfl | rfl <;> assumption)
      (by intro c hc; simp at hc)
    simpa [extract_emojis] using h
  · have h := replace_emojis_run m [c1, c2] [] (by simp)
      (by intro c hc; simp at hc; rcases hc with rfl | rfl <;> assumption)
      (by intro c hc; simp at hc)
    simpa [replace_emojis] using h

theorem C7_adjacent_emojis_single_run_witness :
    extract_emojis [128054, 128049] = [[128054, 128049]] ∧
    replace_emojis [128054, 128049] [([128054], [129418]), ([128049], [127827])] =
      (lookupKey [([128054], [129418]), ([128049], [127827])]
        [128054, 128049]).getD [128054, 128049] :=
  C7_adjacent_emojis_single_run 128054 128049 (by decide) (by decide)
    [([128054], [129418]), ([128049], [127827])]

/-! ## The driver's per-file decision (`main`) -/

/-- The action `main` takes for one file: skip it (no output written), or
dispatch the built emoji map to the extension's format handler. -/
inductive DriverAction where
  | skip : DriverAction
  | dispatch : EmojiMap → DriverAction

/-- The per-file step of `main`: read the distinct emojis in order; if there
are none, skip the file; otherwise build the map from `ANDROID_EMOJI_POOL`
and dispatch it to the matching handler. -/
def driver_step (text : PyStr) : Option DriverAction :=
  let original_emojis := get_emojis_in_order text
  if original_emojis.isEmpty then some DriverAction.skip
  else (build_emoji_map original_emojis ANDROID_EMOJI_POOL).map
    DriverAction.dispatch

/-- The driver's loop over the eligible files' contents, in order; `none`
models a fatal error aborting the run. -/
def driver_run : List PyStr → Option (List DriverAction)
  | [] => some []
  | t :: ts =>
    match driver_step t, driver_run ts with
    | some a, some rest => some (a :: rest)
    | _, _ => none

/-- C8: a file whose text contains no scanner-matched emoji is skipped — no
output is produced for it and this is not an error — and processing
continues with the remaining files. -/
theorem C8_no_emoji_skip (text : PyStr) (h : extract_emojis text = []) :
    driver_step text = some DriverAction.skip ∧
    ∀ rest, driver_run (text :: rest) =
      (driver_run rest).map (fun l => DriverAction.skip :: l) := by
  have hord : get_emojis_in_order text = [] := by
    unfold get_emojis_in_order
    rw [h]
    rfl
  have hstep : driver_step text = some DriverAction.skip := by
    simp [driver_step, hord]
  refine ⟨hstep, fun rest => ?_⟩
  rw [driver_run, hstep]
  cases driver_run rest <;> rfl

theorem C8_no_emoji_skip_witness :
    driver_step [72, 105] = some DriverAction.skip ∧
    ∀ rest, driver_run ([72, 105] :: rest) =
      (driver_run rest).map (fun l => DriverAction.skip :: l) :=
  C8_no_emoji_skip [72, 105] (by simp [extract_emojis, isEmojiChar])

/-! ## JSON handler (`process_json_file`)

Python's parsed JSON values: strings, numbers, booleans, null, lists and
(insertion-ordered, string-keyed) dicts.  The numeric payload is an
arbitrary type `α` — `recursive_replace` never inspects it (it falls
through the final `return obj`). -/

inductive PyJSON (α : Type) where
  | str (s : PyStr) : PyJSON α
  | num (a : α) : PyJSON α
  | bool (b : Bool) : PyJSON α
  | null : PyJSON α
  | arr (items : List (PyJSON α)) : PyJSON α
  | obj (fields : List (PyStr × PyJSON α)) : PyJSON α

variable {α : Type}

mutual

/-- `recursive_replace` from `process_json_file`: substitute emojis in
string leaves, walk lists and dict values recursively, keep dict keys and
everything else (`return obj`) unmodified. -/
def recursive_replace (m : EmojiMap) : PyJSON α → PyJSON α
  | .str s => .str (replace_emojis s m)
  | .num a => .num a
  | .bool b => .bool b
  | .null => .null
  | .arr items => .arr (recursive_replace_list m items)
  | .obj fields => .obj (recursive_replace_fields m fields)

/-- The list comprehension `[recursive_replace(item) for item in obj]`. -/
def recursive_replace_list (m : EmojiMap) :
    List (PyJSON α) → List (PyJSON α)
  | [] => []
  | v :: vs => recursive_replace m v :: recursive_replace_list m vs

/-- The dict comprehension `{k: recursive_replace(v) for k, v in obj.items()}`. -/
def recursive_replace_fields (m : EmojiMap) :
    List (PyStr × PyJSON α) → List (PyStr × PyJSON α)
  | [] => []
  | (k, v) :: kvs => (k, recursive_replace m v) :: recursive_replace_fields m kvs

end

mutual

/-- A JSON value with every string leaf blanked: equality of `nonStringPart`
is exactly "same shape, same keys, same array lengths, same non-string
scalars". -/
def nonStringPart : PyJSON α → PyJSON α
  | .str _ => .str []
  | .num a => .num a
  | .bool b => .bool b
  | .null => .null
  | .arr items => .arr (nonStringPartList items)
  | .obj fields => .obj (nonStringPartFields fields)

def nonStringPartList : List (PyJSON α) → List (PyJSON α)
  | [] => []
  | v :: vs => nonStringPart v :: nonStringPartList vs

def nonStringPartFields : List (PyStr × PyJSON α) → List (PyStr × PyJSON α)
  | [] => []
  | (k, v) :: kvs => (k, nonStringPart v) :: nonStringPartFields kvs

end

mutual

/-- The string leaves of a JSON value, in document order. -/
def stringLeaves : PyJSON α → List PyStr
  | .str s => [s]
  | .num _ => []
  | .bool _ => []
  | .null => []
  | .arr items => stringLeavesList items
  | .obj fields => stringLeavesFields fields

def stringLeavesList : List (PyJSON α) → List PyStr
  | [] => []
  | v :: vs => stringLeaves v ++ stringLeavesList vs

def stringLeavesFields : List (PyStr × PyJSON α) → List PyStr
  | [] => []
  | (_, v) :: kvs => stringLeaves v ++ stringLeavesFields kvs

end

mutual

theorem nonStringPart_replace (m : EmojiMap) : ∀ (v : PyJSON α),
    nonStringPart (recursive_replace m v) = nonStringPart v
  | .str s => by rw [recursive_replace, nonStringPart, nonStringPart]
  | .num a => by rw [recursive_replace]
  | .bool b => by rw [recursive_replace]
  | .null => by rw [recursive_replace]
  | .arr items => by
    rw [recursive_replace, nonStringPart, nonStringPart]
    exact congrArg PyJSON.arr (nonStringPartList_replace m items)
  | .obj fields => by
    rw [recursive_replace, nonStringPart, nonStringPart]
    exact congrArg PyJSON.obj (nonStringPartFields_replace m fields)

theorem nonStringPartList_replace (m : EmojiMap) : ∀ (l : List (PyJSON α)),
    nonStringPartList (recursive_replace_list m l) = nonStringPartList l
  | [] => by rw [recursive_replace_list]
  | v :: vs => by
    rw [recursive_replace_list, nonStringPartList, nonStringPartList]
    rw [nonStringPart_replace m v, nonStringPartList_replace m vs]

theorem nonStringPartFields_replace (m : EmojiMap) :
    ∀ (l : List (PyStr × PyJSON α)),
      nonStringPartFields (recursive_replace_fields m l) = nonStringPartFields l
  | [] => by rw [recursive_replace_fields]
  | (k, v) :: kvs => by
    rw [recursive_replace_fields, nonStringPartFields, nonStringPartFields]
    rw [nonStringPart_replace m v, nonStringPartFields_replace m kvs]

end

mutual

theorem stringLeaves_replace (m : EmojiMap) : ∀ (v : PyJSON α),
    stringLeaves (recursive_replace m v) =
      (stringLeaves v).map (fun s => replace_emojis s m)
  | .str s => by rw [recursive_replace, stringLeaves, stringLeaves]; rfl
  | .num a => by rw [recursive_replace]; rfl
  | .bool b => by rw [recursive_replace]; rfl
  | .null => by rw [recursive_replace]; rfl
  | .arr items => by
    rw [recursive_replace, stringLeaves, stringLeaves]
    exact stringLeavesList_replace m items
  | .obj fields => by
    rw [recursive_replace, stringLeaves, stringLeaves]
    exact stringLeavesFields_replace m fields

theorem stringLeavesList_replace (m : EmojiMap) : ∀ (l : List (PyJSON α)),
    stringLeavesList (recursive_replace_list m l) =
      (stringLeavesList l).map (fun s => replace_emojis s m)
  | [] => by rw [recursive_replace_list]; rfl
  | v :: vs => by
    rw [recursive_replace_list, stringLeavesList, stringLeavesList]
    rw [stringLeaves_replace m v, stringLeavesList_replace m vs, List.map_append]

theorem stringLeavesFields_replace (m : EmojiMap) :
    ∀ (l : List (PyStr × PyJSON α)),
      stringLeavesFields (recursive_replace_fields m l) =
        (stringLeavesFields l).map (fun s => replace_emojis s m)
  | [] => by rw [recursive_replace_fields]; rfl
  | (k, v) :: kvs => by
    rw [recursive_replace_fields, stringLeavesFields, stringLeavesFields]
    rw [stringLeaves_replace m v, stringLeavesFields_replace m kvs,
      List.map_append]

end

/-- C6: the JSON handler's `recursive_replace` preserves the document's
entire non-string structure — object keys, nesting, array lengths and
non-string scalar values are unmodified (equal `nonStringPart`) — and the
string leaves of the output are exactly the input's string leaves, each
transformed by emoji substitution. -/
theorem C6_json_structure_preserved (m : EmojiMap) (v : PyJSON α) :
    nonStringPart (recursive_replace m v) = nonStringPart v ∧
    stringLeaves (recursive_replace m v) =
      (stringLeaves v).map (fun s => replace_emojis s m) :=
  ⟨nonStringPart_replace m v, stringLeaves_replace m v⟩

/-! ## HTML handler (`MyHTMLParser`, `process_html_file`)

The stdlib tokenizer (`html.parser.HTMLParser.feed`) turns the raw text
into a stream of tokens; the source's subclass only decides what each token
contributes to `self.result`.  Tokens are modelled abstractly. -/

inductive HTMLToken where
  | startTag (tag : PyStr) (attrs : List (PyStr × PyStr)) : HTMLToken
  | endTag (tag : PyStr) : HTMLToken
  | data (s : PyStr) : HTMLToken
  | entityRef (name : PyStr) : HTMLToken
  | charRef (name : PyStr) : HTMLToken
  | comment (s : PyStr) : HTMLToken
  | decl (s : PyStr) : HTMLToken
  | pi (s : PyStr) : HTMLToken

/-- `f' {k}="{v}"'` for one attribute (space, key, `="`, value, `"`). -/
def attr_text (kv : PyStr × PyStr) : PyStr :=
  [32] ++ kv.1 ++ [61, 34] ++ kv.2 ++ [34]

/-- `handle_starttag`'s appended piece: `<{tag}{attr_str}>`. -/
def handle_starttag_text (tag : PyStr) (attrs : List (PyStr × PyStr)) : PyStr :=
  [60] ++ tag ++ (attrs.map attr_text).flatten ++ [62]

/-- `handle_endtag`'s appended piece: `</{tag}>`. -/
def handle_endtag_text (tag : PyStr) : PyStr :=
  [60, 47] ++ tag ++ [62]

/-- What `MyHTMLParser` appends to `self.result` for one delivered token:
data runs through `replace_emojis`, entity references are re-emitted as
`&{name};`, character references as `&#{name};`, and comment, declaration
and processing-instruction tokens contribute nothing because `MyHTMLParser`
defines no handler for them and the `HTMLParser` base-class defaults are
no-ops. -/
def MyHTMLParser_handle (m : EmojiMap) : HTMLToken → List PyStr
  | .startTag tag attrs => [handle_starttag_text tag attrs]
  | .endTag tag => [handle_endtag_text tag]
  | .data s => [replace_emojis s m]
  | .entityRef n => [[38] ++ n ++ [59]]
  | .charRef n => [[38, 35] ++ n ++ [59]]
  | .comment _ => []
  | .decl _ => []
  | .pi _ => []

/-- Decimal digits to a number (`&#169;` → 169). -/
def decodeDecimal (ds : PyStr) : Nat :=
  ds.foldl (fun acc d => acc * 10 + (d - 48)) 0

/-- Modelled from the spec: a fragment of the HTML5 named-entity table used
by the stdlib's `unescape` (the full table is not part of this repository).
Covers `amp`, `lt`, `gt`, `quot`, `copy`. -/
def html5_entity_table : List (PyStr × PyStr) :=
  [([97, 109, 112], [38]), ([108, 116], [60]), ([103, 116], [62]),
   ([113, 117, 111, 116], [34]), ([99, 111, 112, 121], [169])]

/-- Modelled from Python's documented `html.parser` semantics (stdlib, not
part of this repository): when `convert_charrefs` is `True` — the default
since Python 3.5, and `MyHTMLParser.__init__` calls `super().__init__()`
without overriding it — entity and numeric character references outside
script/style elements are decoded to the characters they denote and
delivered to `handle_data`; `handle_entityref`/`handle_charref` are never
invoked.  Unknown named entities are left as their original text, decimal
numeric references decode by value (the hex form and the stdlib's
coalescing of adjacent data are not modelled; no settled claim depends on
them). -/
def convert_charref_token : HTMLToken → HTMLToken
  | .entityRef n =>
    match lookupKey html5_entity_table n with
    | some s => .data s
    | none => .data ([38] ++ n ++ [59])
  | .charRef n => .data [decodeDecimal n]
  | t => t

/-- The parser's `feed` over a token stream: each token's handler output is
appended to `self.result` in order; with `convert_charrefs = true` the
tokenizer delivers references already decoded as data. -/
def MyHTMLParser_feed (m : EmojiMap) (convert_charrefs : Bool) :
    List HTMLToken → List PyStr
  | [] => []
  | t :: ts =>
    MyHTMLParser_handle m (if convert_charrefs then convert_charref_token t else t) ++
      MyHTMLParser_feed m convert_charrefs ts

/-- `process_html_file`: feed the text's token stream to a `MyHTMLParser`
built with the source's constructor call (which leaves `convert_charrefs`
at its default `True`) and join the accumulated result (`get_html`). -/
def process_html_file (m : EmojiMap) (tokens : List HTMLToken) : PyStr :=
  (MyHTMLParser_feed m true tokens).flatten

/-- C3, failing input `<p>🐶 &#169;</p>` with map `{🐶 → 🦊}`: the numeric
character reference in character data is decoded to `©` by the tokenizer
(because `convert_charrefs` is left at its default `True` by
`super().__init__()`), so the output is `<p>🦊 ©</p>`, not the claimed
re-emission `<p>🦊 &#169;</p>`; the third conjunct shows the defined (but
never invoked) `handle_charref` would have re-emitted the reference
verbatim had `convert_charrefs` been `False` — the behaviour the spec
describes. -/
theorem C3_charrefs_decoded_not_reemitted :
    process_html_file [([128054], [129418])]
        [HTMLToken.startTag [112] [], HTMLToken.data [128054, 32],
         HTMLToken.charRef [49, 54, 57], HTMLToken.endTag [112]] =
      [60, 112, 62, 129418, 32, 169, 60, 47, 112, 62] ∧
    ([60, 112, 62, 129418, 32, 169, 60, 47, 112, 62] : PyStr) ≠
      [60, 112, 62, 129418, 32, 38, 35, 49, 54, 57, 59, 60, 47, 112, 62] ∧
    (MyHTMLParser_feed [([128054], [129418])] false
        [HTMLToken.startTag [112] [], HTMLToken.data [128054, 32],
         HTMLToken.charRef [49, 54, 57], HTMLToken.endTag [112]]).flatten =
      [60, 112, 62, 129418, 32, 38, 35, 49, 54, 57, 59, 60, 47, 112, 62] := by
  refine ⟨?_, by decide, ?_⟩
  · simp [process_html_file, MyHTMLParser_feed, MyHTMLParser_handle,
      convert_charref_token, decodeDecimal, html5_entity_table, lookupKey,
      handle_starttag_text, handle_endtag_text, replace_emojis, isEmojiChar]
  · simp [MyHTMLParser_feed, MyHTMLParser_handle, handle_starttag_text,
      handle_endtag_text, replace_emojis, isEmojiChar, lookupKey]

/-- Comment, declaration (DOCTYPE) and processing-instruction tokens. -/
def isMetaToken : HTMLToken → Bool
  | .comment _ => true
  | .decl _ => true
  | .pi _ => true
  | _ => false

theorem MyHTMLParser_handle_meta (m : EmojiMap) (convert : Bool)
    (t : HTMLToken) (h : isMetaToken t = true) :
    MyHTMLParser_handle m (if convert then convert_charref_token t else t) =
      [] := by
  cases t <;> simp [isMetaToken] at h <;> cases convert <;>
    simp [convert_charref_token, MyHTMLParser_handle]

theorem feed_filter_meta (m : EmojiMap) (convert : Bool) :
    ∀ tokens : List HTMLToken,
      MyHTMLParser_feed m convert tokens =
        MyHTMLParser_feed m convert
          (tokens.filter (fun t => !isMetaToken t)) := by
  intro tokens
  induction tokens with
  | nil => rfl
  | cons t ts ih =>
    cases hm : isMetaToken t
    · have hf : List.filter (fun x => !isMetaToken x) (t :: ts) =
          t :: List.filter (fun x => !isMetaToken x) ts := by
        simp [List.filter_cons, hm]
      rw [hf, MyHTMLParser_feed, MyHTMLParser_feed, ih]
    · have hf : List.filter (fun x => !isMetaToken x) (t :: ts) =
          List.filter (fun x => !isMetaToken x) ts := by
        simp [List.filter_cons, hm]
      rw [hf, MyHTMLParser_feed,
        MyHTMLParser_handle_meta m convert t hm, List.nil_append, ih]

/-- C10: any comment, DOCTYPE/declaration or processing instruction in the
input contributes nothing to the HTML handler's output — `MyHTMLParser`
defines no handler for those token kinds, so filtering them out of the
stream leaves the output unchanged, for the parser as constructed by the
source (`process_html_file`) and for either `convert_charrefs` mode. -/
theorem C10_meta_tokens_omitted (m : EmojiMap) (convert : Bool)
    (tokens : List HTMLToken) :
    process_html_file m tokens =
      process_html_file m (tokens.filter (fun t => !isMetaToken t)) ∧
    MyHTMLParser_feed m convert tokens =
      MyHTMLParser_feed m convert (tokens.filter (fun t => !isMetaToken t)) ∧
    (∀ t ∈ tokens, isMetaToken t = true → MyHTMLParser_handle m t = []) :=
  ⟨congrArg List.flatten (feed_filter_meta m true tokens),
   feed_filter_meta m convert tokens,
   fun t _ h => by cases t <;> simp [isMetaToken] at h <;>
     simp [MyHTMLParser_handle]⟩

theorem C10_meta_tokens_omitted_witness :
    process_html_file [] [HTMLToken.comment [104], HTMLToken.data [104]] =
      process_html_file []
        (([HTMLToken.comment [104], HTMLToken.data [104]]).filter
          (fun t => !isMetaToken t)) ∧
    MyHTMLParser_feed [] true [HTMLToken.comment [104], HTMLToken.data [104]] =
      MyHTMLParser_feed [] true
        (([HTMLToken.comment [104], HTMLToken.data [104]]).filter
          (fun t => !isMetaToken t)) ∧
    (∀ t ∈ [HTMLToken.comment [104], HTMLToken.data [104]],
      isMetaToken t = true → MyHTMLParser_handle [] t = []) :=
  C10_meta_tokens_omitted [] true [HTMLToken.comment [104], HTMLToken.data [104]]

example : extract_emojis [72, 105, 32, 128054, 33] = [[128054]] := by
  simp [extract_emojis, isEmojiChar]
example : extract_emojis [128054, 128049] = [[128054, 128049]] := by
  simp [extract_emojis, isEmojiChar]
example :
    build_emoji_map [[128054], [127822]] [[129418], [127827]] =
      some [([128054], [129418]), ([127822], [127827])] := by decide
example :
    replace_emojis [73, 32, 128054, 33] [([128054], [129418])] =
      [73, 32, 129418, 33] := by
  simp [replace_emojis, isEmojiChar, lookupKey]
example :
    get_emojis_in_order [128054, 32, 127822, 32, 128054] =
      [[128054], [127822]] := by
  simp [get_emojis_in_order, extract_emojis, isEmojiChar, dedup_seen]
